import Mathlib

/-!
# Verification of `ntscjguess.c`

A shallow embedding of `ntscjguess.c` (a CLI tool that finds the NTSC-J color
whose conversion to sRGB best matches a given sRGB color, by discrete
hill-climbing over the 8-bit RGB lattice), together with proofs of the
specification claims about it.

Modelling conventions:
* C `float`/`double` arithmetic is idealized as exact rational arithmetic (`ℚ`).
  (For the one claim where rounding could matter — the seed byte round-trip —
  the idealization agrees with IEEE binary32/binary64 behavior on all 256 byte
  values.)
* The C library function `pow` (used with non-integral exponents) has no exact
  rational counterpart; every definition that calls it takes it as an explicit
  function parameter `cpow : ℚ → ℚ → ℚ`.  Theorems quantify over `cpow`, so
  they hold for every model of `pow`.
* `unsigned char` is `Fin 256` (arithmetic on it wraps modulo 256, exactly as
  in C); `long int` is `ℤ`, with `LONG_MAX`/`LONG_MIN` of an LP64 platform;
  a C cast of a `long` to `unsigned char` reduces modulo 256; a C cast of a
  floating value to `int` truncates toward zero.
* `strtol(arg, &endptr, 0)` is modelled per C99: skip whitespace, optional
  sign, base detection (`0x`/`0X` + hex digit → base 16, leading `0` → base 8,
  otherwise base 10), maximal digit run, `ERANGE` clamping; `consumed` is
  `endptr - arg` (0 when no digits were converted).
* The search loop (`while(true)` in `main`) is modelled as a step function
  `step` on a loop state; one application of `step` is one sweep of the loop
  body.  The scoring expression `distance(processpixel8(newguess), goal)` is
  abstracted as an error function `err : pixel8 → ℚ` which the theorems
  instantiate with exactly that expression.
-/

/-! ## Color pipeline -/

/-- A float RGB/XYZ triple (`struct pixel`). -/
structure pixel where
  red : ℚ
  green : ℚ
  blue : ℚ
deriving DecidableEq

/-- An 8-bit RGB triple (`struct pixel8`); fields are `unsigned char`. -/
structure pixel8 where
  red : Fin 256
  green : Fin 256
  blue : Fin 256
deriving DecidableEq

/-- `const float ConversionMatrix[3][3]`: precomputed NTSC-J to sRGB gamut
conversion (Bradford method). -/
def ConversionMatrix : ℕ → ℕ → ℚ
  | 0, 0 => 1.34756301456925
  | 0, 1 => -0.276463760747096
  | 0, 2 => -0.071099263267176
  | 1, 0 => -0.031150036968175
  | 1, 1 => 0.956512223260545
  | 1, 2 => 0.074637860817515
  | 2, 0 => -0.024443490594835
  | 2, 1 => -0.048150182045316
  | 2, 2 => 1.07259361295816
  | _, _ => 0

/-- `const float RGBtoXYZMatrix[3][3]` (sRGB gamut). -/
def RGBtoXYZMatrix : ℕ → ℕ → ℚ
  | 0, 0 => 0.412410846488539
  | 0, 1 => 0.357584567852952
  | 0, 2 => 0.180453803933608
  | 1, 0 => 0.212649342720653
  | 1, 1 => 0.715169135705904
  | 1, 2 => 0.072181521573443
  | 2, 0 => 0.01933175842915
  | 2, 1 => 0.119194855950984
  | 2, 2 => 0.950390034050337
  | _, _ => 0

/-- `const float XYZtoRGBMatrix[3][3]` (sRGB gamut). -/
def XYZtoRGBMatrix : ℕ → ℕ → ℚ
  | 0, 0 => 3.24081239889528
  | 0, 1 => -1.53730844562981
  | 0, 2 => -0.498586522906966
  | 1, 0 => -0.969243017008641
  | 1, 1 => 1.87596630290857
  | 1, 2 => 0.041555030856686
  | 2, 0 => 0.055638398436113
  | 2, 1 => -0.204007460932414
  | 2, 2 => 1.05712957028614
  | _, _ => 0

/-- `clampfloat`: clamp a float between 0.0 and 1.0. -/
def clampfloat (input : ℚ) : ℚ :=
  if input < 0.0 then 0.0
  else if input > 1.0 then 1.0
  else input

/-- `rgbtofloat`: RGB8 to float, `input / 255.0`. -/
def rgbtofloat (input : ℤ) : ℚ :=
  input / 255.0

/-- Truncation toward zero of a rational, the semantics of a C cast of a
floating value to an integer type (`Int.tdiv` truncates toward zero). -/
def ratTrunc (q : ℚ) : ℤ :=
  Int.tdiv q.num (q.den : ℤ)

/-- `rgbtoint`: float to RGB8, `(int)(input * 255.0)`. -/
def rgbtoint (input : ℚ) : ℤ :=
  ratTrunc (input * 255.0)

/-- `togamma`: sRGB gamma encode; calls `pow(input, 1.0/2.4)` through the
`pow` model `cpow`. -/
def togamma (cpow : ℚ → ℚ → ℚ) (input : ℚ) : ℚ :=
  if input ≤ 0.0031308 then clampfloat (input * 12.92)
  else clampfloat (1.055 * cpow input (1.0 / 2.4) - 0.055)

/-- `tolinear`: sRGB gamma decode; calls `pow((input+0.055)/1.055, 2.4)`
through the `pow` model `cpow`. -/
def tolinear (cpow : ℚ → ℚ → ℚ) (input : ℚ) : ℚ :=
  if input ≤ 0.04045 then clampfloat (input / 12.92)
  else clampfloat (cpow ((input + 0.055) / 1.055) 2.4)

/-- `pixelfromint`: unpack `0xRRGGBB` from a `long int` into a float pixel. -/
def pixelfromint (input : ℤ) : pixel where
  red := rgbtofloat (input >>> (16 : ℤ))
  green := rgbtofloat (Int.land input 0x0000FF00 >>> (8 : ℤ))
  blue := rgbtofloat (Int.land input 0x000000FF)

/-- `pixelfrompixel8`: widen an 8-bit pixel to a float pixel. -/
def pixelfrompixel8 (input : pixel8) : pixel where
  red := rgbtofloat (input.red : ℤ)
  green := rgbtofloat (input.green : ℤ)
  blue := rgbtofloat (input.blue : ℤ)

/-- `pixel8frompixel`: narrow a float pixel to an 8-bit pixel; the `long`
results of `rgbtoint` are stored into `unsigned char` fields, which reduces
them modulo 256. -/
def pixel8frompixel (input : pixel) : pixel8 where
  red := ⟨(rgbtoint input.red % 256).toNat, by omega⟩
  green := ⟨(rgbtoint input.green % 256).toNat, by omega⟩
  blue := ⟨(rgbtoint input.blue % 256).toNat, by omega⟩

/-- `pixeltolinear`: apply `tolinear` channel-wise. -/
def pixeltolinear (cpow : ℚ → ℚ → ℚ) (input : pixel) : pixel where
  red := tolinear cpow input.red
  green := tolinear cpow input.green
  blue := tolinear cpow input.blue

/-- `pixeltogamma`: apply `togamma` channel-wise. -/
def pixeltogamma (cpow : ℚ → ℚ → ℚ) (input : pixel) : pixel where
  red := togamma cpow input.red
  green := togamma cpow input.green
  blue := togamma cpow input.blue

/-- `NTSCJtoSRGB`: multiply by the NTSC-J to sRGB Bradford matrix, then clamp
each channel to the 0 to 1 range. -/
def NTSCJtoSRGB (input : pixel) : pixel where
  red := clampfloat (ConversionMatrix 0 0 * input.red + ConversionMatrix 0 1 * input.green +
    ConversionMatrix 0 2 * input.blue)
  green := clampfloat (ConversionMatrix 1 0 * input.red + ConversionMatrix 1 1 * input.green +
    ConversionMatrix 1 2 * input.blue)
  blue := clampfloat (ConversionMatrix 2 0 * input.red + ConversionMatrix 2 1 * input.green +
    ConversionMatrix 2 2 * input.blue)

/-- `RGBtoXYZ`: multiply by the RGB-to-XYZ matrix, then clamp each channel. -/
def RGBtoXYZ (input : pixel) : pixel where
  red := clampfloat (RGBtoXYZMatrix 0 0 * input.red + RGBtoXYZMatrix 0 1 * input.green +
    RGBtoXYZMatrix 0 2 * input.blue)
  green := clampfloat (RGBtoXYZMatrix 1 0 * input.red + RGBtoXYZMatrix 1 1 * input.green +
    RGBtoXYZMatrix 1 2 * input.blue)
  blue := clampfloat (RGBtoXYZMatrix 2 0 * input.red + RGBtoXYZMatrix 2 1 * input.green +
    RGBtoXYZMatrix 2 2 * input.blue)

/-- `XYZtoRGB`: multiply by the XYZ-to-RGB matrix, then clamp each channel. -/
def XYZtoRGB (input : pixel) : pixel where
  red := clampfloat (XYZtoRGBMatrix 0 0 * input.red + XYZtoRGBMatrix 0 1 * input.green +
    XYZtoRGBMatrix 0 2 * input.blue)
  green := clampfloat (XYZtoRGBMatrix 1 0 * input.red + XYZtoRGBMatrix 1 1 * input.green +
    XYZtoRGBMatrix 1 2 * input.blue)
  blue := clampfloat (XYZtoRGBMatrix 2 0 * input.red + XYZtoRGBMatrix 2 1 * input.green +
    XYZtoRGBMatrix 2 2 * input.blue)

/-- `processpixel8`: start with an 8-bit pixel, convert to float, linearize,
gamut convert, convert to XYZ. -/
def processpixel8 (cpow : ℚ → ℚ → ℚ) (input : pixel8) : pixel :=
  RGBtoXYZ (NTSCJtoSRGB (pixeltolinear cpow (pixelfrompixel8 input)))

/-- `distance`: Euclidean distance between two pixels, computed through
`pow(·, 2.0)` and `pow(·, 0.5)` as in the source. -/
def distance (cpow : ℚ → ℚ → ℚ) (pixA pixB : pixel) : ℚ :=
  let diffr := pixA.red - pixB.red
  let diffg := pixA.green - pixB.green
  let diffb := pixA.blue - pixB.blue
  let diffr2 := cpow diffr 2.0
  let diffg2 := cpow diffg 2.0
  let diffb2 := cpow diffb 2.0
  cpow (diffr2 + diffg2 + diffb2) 0.5

/-! ## CLI argument parsing (`strtol` model and `main`'s exit code) -/

/-- C `isspace` in the default locale. -/
def isCSpace (c : Char) : Bool :=
  c == ' ' || c == '\t' || c == '\n' || c == Char.ofNat 11 || c == Char.ofNat 12 || c == '\r'

/-- Is `c` a hexadecimal digit? -/
def isHexDigitChar (c : Char) : Bool :=
  ('0' ≤ c && c ≤ '9') || ('a' ≤ c && c ≤ 'f') || ('A' ≤ c && c ≤ 'F')

/-- Is `c` an octal digit? -/
def isOctDigitChar (c : Char) : Bool :=
  '0' ≤ c && c ≤ '7'

/-- Is `c` a decimal digit? -/
def isDecDigitChar (c : Char) : Bool :=
  '0' ≤ c && c ≤ '9'

/-- Value of a hexadecimal digit. -/
def hexVal (c : Char) : ℕ :=
  if '0' ≤ c && c ≤ '9' then c.toNat - '0'.toNat
  else if 'a' ≤ c && c ≤ 'f' then c.toNat - 'a'.toNat + 10
  else c.toNat - 'A'.toNat + 10

/-- Value of a decimal (or octal) digit. -/
def decVal (c : Char) : ℕ :=
  c.toNat - '0'.toNat

/-- Accumulate a digit string in the given base. -/
def digitsVal (base : ℕ) (val : Char → ℕ) (l : List Char) : ℕ :=
  l.foldl (fun a c => a * base + val c) 0

/-- `LONG_MAX` on an LP64 platform. -/
def LONG_MAX : ℤ := 2 ^ 63 - 1

/-- `LONG_MIN` on an LP64 platform. -/
def LONG_MIN : ℤ := -(2 ^ 63)

/-- Result of the `strtol` model: the returned `long`, the number of
characters consumed (`endptr - nptr`), and whether `errno` was set to
`ERANGE`. -/
structure StrtolResult where
  value : ℤ
  consumed : ℕ
  erange : Bool
deriving DecidableEq

/-- Apply the sign and the `ERANGE` clamping of `strtol` to the magnitude
`m` accumulated from the digit string. -/
def mkStrtol (neg : Bool) (m : ℕ) (used : ℕ) : StrtolResult :=
  if neg then
    if (m : ℤ) > 2 ^ 63 then ⟨LONG_MIN, used, true⟩ else ⟨-(m : ℤ), used, false⟩
  else
    if (m : ℤ) > LONG_MAX then ⟨LONG_MAX, used, true⟩ else ⟨(m : ℤ), used, false⟩

/-- Does the remaining input start with a hex marker `0x`/`0X` followed by at
least one hex digit (the condition under which `strtol` with base 0 consumes
the marker and parses base 16)? -/
def hexMarked : List Char → Bool
  | c0 :: c1 :: c2 :: _ => c0 == '0' && (c1 == 'x' || c1 == 'X') && isHexDigitChar c2
  | _ => false

/-- Does the remaining input start with `0` (base-0 `strtol` then parses the
digit run, `0` included, as octal)? -/
def leadZero : List Char → Bool
  | c :: _ => c == '0'
  | _ => false

/-- The digit-run part of `strtol` with base 0, after whitespace and sign have
been scanned: detect the base, consume the maximal digit run, and build the
result.  `used` counts the characters scanned so far; if no digits can be
converted, `endptr` is reset to the start of the string (`consumed = 0`). -/
def strtolNum (neg : Bool) (used : ℕ) (r : List Char) : StrtolResult :=
  if hexMarked r then
    let ds := (r.drop 2).takeWhile isHexDigitChar
    mkStrtol neg (digitsVal 16 hexVal ds) (used + 2 + ds.length)
  else if leadZero r then
    let ds := r.takeWhile isOctDigitChar
    mkStrtol neg (digitsVal 8 decVal ds) (used + ds.length)
  else
    let ds := r.takeWhile isDecDigitChar
    if ds.isEmpty then ⟨0, 0, false⟩
    else mkStrtol neg (digitsVal 10 decVal ds) (used + ds.length)

/-- Model of C99 `strtol(s, &endptr, 0)`. -/
def strtol (s : List Char) : StrtolResult :=
  let ws := (s.takeWhile isCSpace).length
  match s.drop ws with
  | '-' :: r2 => strtolNum true (ws + 1) r2
  | '+' :: r2 => strtolNum false (ws + 1) r2
  | r2 => strtolNum false ws r2

/-- The input-validation block of `main` (lines 204-220): the argument is
accepted when `strtol` consumed exactly 8 characters, `*endptr == '\0'`
(i.e. the whole argument was consumed), and `errno` is still 0. -/
def inputok (arg : String) : Bool :=
  let r := strtol arg.data
  (r.consumed == 8) && (r.consumed == arg.data.length) && (!r.erange)

/-- The `long int input` parsed from the argument. -/
def parsedInput (arg : String) : ℤ :=
  (strtol arg.data).value

/-- The exit code of `main`, as a function of the argument list (without the
program name; `argc == 2` means exactly one argument): `1` for a wrong
argument count, `2` for a bad parameter, `0` on success.  On the success path
the search loop runs before `output = 0` is reached; it terminates for every
input (theorem `loop_terminates` below), so the exit code is returned. -/
def main_exit : List String → ℕ
  | [arg] => if inputok arg then 0 else 2
  | _ => 1

/-! ## The discrete optimizer (`main`'s search loop) -/

/-- The running state of one sweep of the loop body: `bestguess`, `besterror`,
and the `foundbetterguess` flag. -/
structure SweepState where
  bestguess : pixel8
  besterror : ℚ
  found : Bool
deriving DecidableEq

/-- One candidate block of the loop body: score `cand` and accept it when its
error is strictly below the running best error.  `err` abstracts the scoring
expression `distance(processpixel8(newguess), goal)`. -/
def tryCandidate (err : pixel8 → ℚ) (cand : pixel8) (s : SweepState) : SweepState :=
  if err cand < s.besterror then ⟨cand, err cand, true⟩ else s

/-- One full sweep of the `while(true)` body (lines 236-309): six candidate
blocks, each re-starting from the sweep's fixed center `lastguess`, guarded so
that a channel at the boundary skips the corresponding direction.  Channel
arithmetic is `Fin 256`, i.e. wrapping `unsigned char` arithmetic, exactly as
in C (the guards make wrapping unreachable). -/
def sweep (err : pixel8 → ℚ) (bestguess : pixel8) (besterror : ℚ) : SweepState :=
  let lastguess := bestguess
  let s0 : SweepState := ⟨bestguess, besterror, false⟩
  let s1 := if lastguess.red.val < 255 then
    tryCandidate err { lastguess with red := lastguess.red + 1 } s0 else s0
  let s2 := if lastguess.red.val > 0 then
    tryCandidate err { lastguess with red := lastguess.red - 1 } s1 else s1
  let s3 := if lastguess.green.val < 255 then
    tryCandidate err { lastguess with green := lastguess.green + 1 } s2 else s2
  let s4 := if lastguess.green.val > 0 then
    tryCandidate err { lastguess with green := lastguess.green - 1 } s3 else s3
  let s5 := if lastguess.blue.val < 255 then
    tryCandidate err { lastguess with blue := lastguess.blue + 1 } s4 else s4
  let s6 := if lastguess.blue.val > 0 then
    tryCandidate err { lastguess with blue := lastguess.blue - 1 } s5 else s5
  s6

/-- The in-range candidates of one sweep, in the fixed enumeration order of
the loop body: `+red, -red, +green, -green, +blue, -blue`, with
boundary directions skipped. -/
def candidates (p : pixel8) : List pixel8 :=
  (if p.red.val < 255 then [{ p with red := p.red + 1 }] else []) ++
  (if p.red.val > 0 then [{ p with red := p.red - 1 }] else []) ++
  (if p.green.val < 255 then [{ p with green := p.green + 1 }] else []) ++
  (if p.green.val > 0 then [{ p with green := p.green - 1 }] else []) ++
  (if p.blue.val < 255 then [{ p with blue := p.blue + 1 }] else []) ++
  (if p.blue.val > 0 then [{ p with blue := p.blue - 1 }] else [])

/-- The state of the `while(true)` loop between sweeps; `done` records that
the loop has executed its `break`. -/
structure LoopState where
  bestguess : pixel8
  besterror : ℚ
  done : Bool
deriving DecidableEq

/-- One iteration of the `while(true)` loop: run a sweep from the current
best; if no better guess was found, break (`done := true`), otherwise
continue from the sweep's result. -/
def step (err : pixel8 → ℚ) (s : LoopState) : LoopState :=
  if s.done then s
  else
    let r := sweep err s.bestguess s.besterror
    if r.found then ⟨r.bestguess, r.besterror, false⟩ else ⟨r.bestguess, r.besterror, true⟩

/-- The goal computed by `main` (lines 222-224):
`RGBtoXYZ(pixeltolinear(pixelfromint(input)))`. -/
def goalOf (cpow : ℚ → ℚ → ℚ) (input : ℤ) : pixel :=
  RGBtoXYZ (pixeltolinear cpow (pixelfromint input))

/-- The seed (`firstguess`, line 228): the input pixel re-encoded as bytes. -/
def firstguess (input : ℤ) : pixel8 :=
  pixel8frompixel (pixelfromint input)

/-- The scoring expression of the loop body:
`distance(processpixel8(newguess), goal)`. -/
def newerrorOf (cpow : ℚ → ℚ → ℚ) (goal : pixel) (p : pixel8) : ℚ :=
  distance cpow (processpixel8 cpow p) goal

/-- The loop state at `while(true)` entry: `bestguess = firstguess`,
`besterror = firsterror`. -/
def initialState (cpow : ℚ → ℚ → ℚ) (input : ℤ) : LoopState :=
  ⟨firstguess input, newerrorOf cpow (goalOf cpow input) (firstguess input), false⟩

/-! ## Helper lemmas about the sweep -/

/-- Proof device: a sweep is a left fold of `tryCandidate` over a candidate
list. -/
def runSweep (err : pixel8 → ℚ) (l : List pixel8) (s : SweepState) : SweepState :=
  l.foldl (fun a c => tryCandidate err c a) s

lemma runSweep_nil (err : pixel8 → ℚ) (s : SweepState) : runSweep err [] s = s := rfl

lemma runSweep_cons (err : pixel8 → ℚ) (c : pixel8) (t : List pixel8) (s : SweepState) :
    runSweep err (c :: t) s = runSweep err t (tryCandidate err c s) := rfl

/-- The six guarded blocks of the loop body are exactly a fold of
`tryCandidate` over the in-range candidate list. -/
lemma sweep_eq_runSweep (err : pixel8 → ℚ) (g : pixel8) (e : ℚ) :
    sweep err g e = runSweep err (candidates g) ⟨g, e, false⟩ := by
  simp only [sweep, candidates, runSweep]
  split_ifs <;> rfl

lemma tryCandidate_besterror_le (err : pixel8 → ℚ) (c : pixel8) (s : SweepState) :
    (tryCandidate err c s).besterror ≤ s.besterror := by
  unfold tryCandidate
  split
  · exact le_of_lt (by assumption)
  · exact le_refl _

lemma runSweep_besterror_le (err : pixel8 → ℚ) (l : List pixel8) :
    ∀ s : SweepState, (runSweep err l s).besterror ≤ s.besterror := by
  induction l with
  | nil => intro s; simp [runSweep_nil]
  | cons c t ih =>
    intro s
    rw [runSweep_cons]
    exact le_trans (ih (tryCandidate err c s)) (tryCandidate_besterror_le err c s)

/-- If no candidate improves on the entering best error, the sweep leaves the
state unchanged. -/
lemma runSweep_of_no_improve (err : pixel8 → ℚ) (l : List pixel8) :
    ∀ s : SweepState, (∀ c ∈ l, s.besterror ≤ err c) → runSweep err l s = s := by
  induction l with
  | nil => intro s _; rfl
  | cons c t ih =>
    intro s h
    have hc : tryCandidate err c s = s := by
      unfold tryCandidate
      split
    
      · exact absurd (h c (List.mem_cons_self c t)) (not_le.mpr (by assumption))
      · rfl
    rw [runSweep_cons, hc]
    exact ih s fun d hd => h d (List.mem_cons_of_mem c hd)

/-- If the sweep ends with `foundbetterguess` still false, nothing was
accepted: the state is unchanged and no candidate beat the entering error. -/
lemma runSweep_of_not_found (err : pixel8 → ℚ) (l : List pixel8) :
    ∀ s : SweepState, (runSweep err l s).found = false →
      runSweep err l s = s ∧ ∀ c ∈ l, s.besterror ≤ err c := by
  induction l with
  | nil => intro s _; exact ⟨rfl, by simp⟩
  | cons c t ih =>
    intro s hf
    rw [runSweep_cons] at hf ⊢
    by_cases hc : err c < s.besterror
    · exfalso
      have hstep : tryCandidate err c s = ⟨c, err c, true⟩ := by simp [tryCandidate, hc]
      rw [hstep] at hf
      have : ∀ (l' : List pixel8) (s' : SweepState), s'.found = true →
          (runSweep err l' s').found = true := by
        intro l'
        induction l' with
        | nil => intro s' h; exact h
        | cons d t' ih' =>
          intro s' h
          rw [runSweep_cons]
          refine ih' _ ?_
          unfold tryCandidate
          split
          · rfl
          · exact h
      rw [this t ⟨c, err c, true⟩ rfl] at hf
      simp at hf
    · have hstep : tryCandidate err c s = s := by simp [tryCandidate, hc]
      rw [hstep] at hf ⊢
      obtain ⟨heq, hall⟩ := ih s hf
      refine ⟨heq, ?_⟩
      intro d hd
      rcases List.mem_cons.mp hd with rfl | hd
      · exact not_lt.mp hc
      · exact hall d hd

/-- `foundbetterguess` only ever goes from false to true. -/
lemma runSweep_found_mono (err : pixel8 → ℚ) (l : List pixel8) :
    ∀ s : SweepState, s.found = true → (runSweep err l s).found = true := by
  induction l with
  | nil => intro s h; exact h
  | cons c t ih =>
    intro s h
    rw [runSweep_cons]
    refine ih _ ?_
    unfold tryCandidate
    split
    · rfl
    · exact h

/-- If `foundbetterguess` was set starting from a clean state, some candidate
beat the entering error. -/
lemma runSweep_found_improve (err : pixel8 → ℚ) (l : List pixel8) (s : SweepState)
    (hs : s.found = false) (hf : (runSweep err l s).found = true) :
    ∃ c ∈ l, err c < s.besterror := by
  by_contra h
  push_neg at h
  rw [runSweep_of_no_improve err l s (fun c hc => h c hc)] at hf
  rw [hs] at hf
  exact Bool.false_ne_true hf

/-- The running `besterror` always records the error of the running
`bestguess`, provided it did on entry. -/
lemma runSweep_error_eq (err : pixel8 → ℚ) (l : List pixel8) :
    ∀ s : SweepState, s.besterror = err s.bestguess →
      (runSweep err l s).besterror = err (runSweep err l s).bestguess := by
  induction l with
  | nil => intro s h; exact h
  | cons c t ih =>
    intro s h
    rw [runSweep_cons]
    refine ih _ ?_
    unfold tryCandidate
    split
    · rfl
    · exact h

/-- Full characterization of an improving sweep: the fold accepts, its result
attains the minimum error over the whole candidate list, strictly improves on
the entering error, and is the earliest candidate in enumeration order
attaining that minimum. -/
lemma runSweep_improve (err : pixel8 → ℚ) (l : List pixel8) :
    ∀ s : SweepState, (∃ c ∈ l, err c < s.besterror) →
      (runSweep err l s).found = true ∧
      (runSweep err l s).besterror = err (runSweep err l s).bestguess ∧
      err (runSweep err l s).bestguess < s.besterror ∧
      (∀ c ∈ l, err (runSweep err l s).bestguess ≤ err c) ∧
      ∃ l₁ l₂, l = l₁ ++ (runSweep err l s).bestguess :: l₂ ∧
        ∀ c ∈ l₁, err (runSweep err l s).bestguess < err c := by
  induction l with
  | nil => intro s h; simp at h
  | cons c t ih =>
    intro s h
    by_cases hc : err c < s.besterror
    · have hstep : tryCandidate err c s = ⟨c, err c, true⟩ := by simp [tryCandidate, hc]
      rw [runSweep_cons, hstep]
      by_cases ht : ∃ d ∈ t, err d < err c
      · have hrec := ih ⟨c, err c, true⟩ (by simpa using ht)
        obtain ⟨hf, heq, hlt, hall, l₁, l₂, hsplit, hstrict⟩ := hrec
        have hsplit' : c :: t =
            (c :: l₁) ++ (runSweep err t ⟨c, err c, true⟩).bestguess :: l₂ := by
          rw [List.cons_append]
          exact congrArg (List.cons c) hsplit
        refine ⟨hf, heq, lt_trans hlt hc, ?_, c :: l₁, l₂, hsplit', ?_⟩
        · intro d hd
          rcases List.mem_cons.mp hd with rfl | hd
          · exact le_of_lt hlt
          · exact hall d hd
        · intro d hd
          rcases List.mem_cons.mp hd with rfl | hd
          · exact hlt
          · exact hstrict d hd
      · push_neg at ht
        have hrs : runSweep err t ⟨c, err c, true⟩ = ⟨c, err c, true⟩ :=
          runSweep_of_no_improve err t _ (fun d hd => ht d hd)
        rw [hrs]
        refine ⟨rfl, rfl, hc, ?_, [], t, rfl, by simp⟩
        intro d hd
        rcases List.mem_cons.mp hd with rfl | hd
        · exact le_refl _
        · exact ht d hd
    · have hstep : tryCandidate err c s = s := by simp [tryCandidate, hc]
      rw [runSweep_cons, hstep]
      have h' : ∃ d ∈ t, err d < s.besterror := by
        rcases h with ⟨d, hd, hlt⟩
        rcases List.mem_cons.mp hd with rfl | hd
        · exact absurd hlt hc
        · exact ⟨d, hd, hlt⟩
      obtain ⟨hf, heq, hlt, hall, l₁, l₂, hsplit, hstrict⟩ := ih s h'
      have hsplit' : c :: t = (c :: l₁) ++ (runSweep err t s).bestguess :: l₂ := by
        rw [List.cons_append]
        exact congrArg (List.cons c) hsplit
      refine ⟨hf, heq, hlt, ?_, c :: l₁, l₂, hsplit', ?_⟩
      · intro d hd
        rcases List.mem_cons.mp hd with rfl | hd
        · exact le_trans (le_of_lt hlt) (not_lt.mp hc)
        · exact hall d hd
      · intro d hd
        rcases List.mem_cons.mp hd with rfl | hd
        · exact lt_of_lt_of_le hlt (not_lt.mp hc)
        · exact hstrict d hd

/-! ## Helper lemmas about the loop -/

set_option maxRecDepth 10000

/-- `pixel8` is in bijection with the triples of its channels. -/
def pixel8Equiv : pixel8 ≃ Fin 256 × Fin 256 × Fin 256 where
  toFun p := (p.red, p.green, p.blue)
  invFun t := ⟨t.1, t.2.1, t.2.2⟩
  left_inv _ := rfl
  right_inv _ := rfl

instance : Fintype pixel8 := Fintype.ofEquiv _ pixel8Equiv.symm

/-- The loop invariant: the recorded best error is the error of the recorded
best guess, and once the loop has broken, no in-range neighbor of the final
guess improves on it. -/
def LoopInv (err : pixel8 → ℚ) (s : LoopState) : Prop :=
  s.besterror = err s.bestguess ∧
  (s.done = true → ∀ c ∈ candidates s.bestguess, err s.bestguess ≤ err c)

lemma step_of_done {err : pixel8 → ℚ} {s : LoopState} (h : s.done = true) :
    step err s = s := by
  simp [step, h]

lemma loopInv_step {err : pixel8 → ℚ} {s : LoopState} (h : LoopInv err s) :
    LoopInv err (step err s) := by
  by_cases hd : s.done = true
  · rw [step_of_done hd]; exact h
  · have hd' : s.done = false := by simpa using hd
    unfold step
    rw [hd']
    simp only [Bool.false_eq_true, if_false]
    rw [sweep_eq_runSweep]
    by_cases hf : (runSweep err (candidates s.bestguess) ⟨s.bestguess, s.besterror, false⟩).found = true
    · rw [if_pos hf]
      refine ⟨?_, by simp⟩
      exact runSweep_error_eq err _ _ h.1
    · have hf' : (runSweep err (candidates s.bestguess) ⟨s.bestguess, s.besterror, false⟩).found = false := by
        simpa using hf
      rw [if_neg (by simp [hf'])]
      obtain ⟨heq, hall⟩ := runSweep_of_not_found err _ _ hf'
      rw [heq]
      refine ⟨h.1, fun _ c hc => ?_⟩
      simpa [← h.1] using hall c hc

lemma loopInv_iterate (err : pixel8 → ℚ) (g : pixel8) (n : ℕ) :
    LoopInv err ((step err)^[n] ⟨g, err g, false⟩) := by
  induction n with
  | zero => exact ⟨rfl, by simp⟩
  | succ n ih =>
    rw [Function.iterate_succ_apply']
    exact loopInv_step ih

/-- `step` on a not-yet-done state, written through `runSweep`. -/
lemma step_mk_false (err : pixel8 → ℚ) (g : pixel8) (e : ℚ) :
    step err ⟨g, e, false⟩ =
      if (runSweep err (candidates g) ⟨g, e, false⟩).found then
        ⟨(runSweep err (candidates g) ⟨g, e, false⟩).bestguess,
          (runSweep err (candidates g) ⟨g, e, false⟩).besterror, false⟩
      else
        ⟨(runSweep err (candidates g) ⟨g, e, false⟩).bestguess,
          (runSweep err (candidates g) ⟨g, e, false⟩).besterror, true⟩ := by
  show (if (false : Bool) = true then _ else _) = _
  rw [if_neg (by simp), sweep_eq_runSweep]

/-- One continuing iteration from a coherent state strictly lowers the
recorded best error, and the new state is again of the coherent shape. -/
lemma step_improve {err : pixel8 → ℚ} {g : pixel8}
    (hf : (step err ⟨g, err g, false⟩).done = false) :
    ∃ g' : pixel8, step err ⟨g, err g, false⟩ = ⟨g', err g', false⟩ ∧ err g' < err g := by
  rw [step_mk_false] at hf ⊢
  by_cases hfound : (runSweep err (candidates g) ⟨g, err g, false⟩).found = true
  · rw [if_pos hfound] at hf ⊢
    obtain ⟨c, hc, hlt⟩ := runSweep_found_improve err (candidates g) _ rfl hfound
    obtain ⟨-, heq, hbest, -, -⟩ := runSweep_improve err (candidates g) _ ⟨c, hc, hlt⟩
    exact ⟨(runSweep err (candidates g) ⟨g, err g, false⟩).bestguess, by rw [heq], hbest⟩
  · rw [if_neg hfound] at hf
    simp at hf

/-- The `while(true)` loop terminates: iterating `step` from the loop entry
state eventually reaches a `done` state.  The measure is the number of
lattice points whose error is strictly below the current best error. -/
lemma loop_terminates (err : pixel8 → ℚ) (g : pixel8) :
    ∃ n, ((step err)^[n] ⟨g, err g, false⟩).done = true := by
  have main : ∀ (k : ℕ) (g : pixel8),
      (Finset.univ.filter (fun p : pixel8 => err p < err g)).card ≤ k →
      ∃ n, ((step err)^[n] ⟨g, err g, false⟩).done = true := by
    intro k
    induction k with
    | zero =>
      intro g hcard
      by_cases hf : (step err ⟨g, err g, false⟩).done = true
      · exact ⟨1, by simpa using hf⟩
      · exfalso
        obtain ⟨g', _, hlt⟩ := step_improve (by simpa using hf)
        have hmem : g' ∈ Finset.univ.filter (fun p : pixel8 => err p < err g) := by
          simp [hlt]
        have := Finset.card_pos.mpr ⟨g', hmem⟩
        omega
    | succ k ih =>
      intro g hcard
      by_cases hf : (step err ⟨g, err g, false⟩).done = true
      · exact ⟨1, by simpa using hf⟩
      · obtain ⟨g', hstep, hlt⟩ := step_improve (by simpa using hf)
        have hsub : Finset.univ.filter (fun p : pixel8 => err p < err g') ⊂
            Finset.univ.filter (fun p : pixel8 => err p < err g) := by
          refine Finset.ssubset_iff_of_subset ?_ |>.mpr ?_
          · intro p hp
            simp only [Finset.mem_filter, Finset.mem_univ, true_and] at hp ⊢
            exact lt_trans hp hlt
          · exact ⟨g', by simp [hlt], by simp⟩
        have hcard' : (Finset.univ.filter (fun p : pixel8 => err p < err g')).card ≤ k := by
          have := Finset.card_lt_card hsub
          omega
        obtain ⟨n, hn⟩ := ih g' hcard'
        refine ⟨n + 1, ?_⟩
        rw [Function.iterate_succ_apply, hstep]
        exact hn
  exact main _ g le_rfl

/-- Each step never increases the recorded best error. -/
lemma step_besterror_le (err : pixel8 → ℚ) (s : LoopState) :
    (step err s).besterror ≤ s.besterror := by
  unfold step
  by_cases hd : s.done = true
  · rw [if_pos hd]
  · rw [if_neg hd]
    rw [sweep_eq_runSweep]
    by_cases hfound : (runSweep err (candidates s.bestguess) ⟨s.bestguess, s.besterror, false⟩).found = true
    · rw [if_pos hfound]
      exact runSweep_besterror_le err _ _
    · rw [if_neg hfound]
      exact runSweep_besterror_le err _ _

/-- Across iterations, the recorded best error never rises above its initial
value. -/
lemma iterate_besterror_le (err : pixel8 → ℚ) (s : LoopState) (n : ℕ) :
    ((step err)^[n] s).besterror ≤ s.besterror := by
  induction n with
  | zero => exact le_refl _
  | succ n ih =>
    rw [Function.iterate_succ_apply']
    exact le_trans (step_besterror_le err _) ih

/-! ## Helper lemmas about candidates -/

lemma fin_add_one_val (x : Fin 256) (h : x.val < 255) : (x + 1).val = x.val + 1 := by
  have h1 : (1 : Fin 256).val = 1 := rfl
  simp [Fin.add_def, h1, Nat.mod_eq_of_lt (by omega : x.val + 1 < 256)]

lemma fin_sub_one_val (x : Fin 256) (h : 0 < x.val) : (x - 1).val = x.val - 1 := by
  have h1 : (1 : Fin 256).val = 1 := rfl
  have h2 := x.isLt
  simp [Fin.sub_def, h1]
  omega

/-- Membership in the candidate list, unfolded. -/
lemma mem_candidates_iff {p c : pixel8} :
    c ∈ candidates p ↔
      (p.red.val < 255 ∧ c = { p with red := p.red + 1 }) ∨
      (0 < p.red.val ∧ c = { p with red := p.red - 1 }) ∨
      (p.green.val < 255 ∧ c = { p with green := p.green + 1 }) ∨
      (0 < p.green.val ∧ c = { p with green := p.green - 1 }) ∨
      (p.blue.val < 255 ∧ c = { p with blue := p.blue + 1 }) ∨
      (0 < p.blue.val ∧ c = { p with blue := p.blue - 1 }) := by
  have hmem : ∀ (c : Prop) [Decidable c] (a x : pixel8),
      (x ∈ if c then [a] else []) ↔ c ∧ x = a := by
    intro c _ a x
    split_ifs with h <;> simp [h]
  simp only [candidates, List.mem_append, hmem, or_assoc]

/-! ## Helper lemmas for the seed (claim C1) -/

/-- C truncation of an integer-valued rational is the identity. -/
lemma ratTrunc_intCast (z : ℤ) : ratTrunc (z : ℚ) = z := by
  unfold ratTrunc
  rw [Rat.num_intCast, Rat.den_intCast, Nat.cast_one]
  exact Int.tdiv_one z

/-- The byte round trip of the seed: `(int)((b / 255.0) * 255.0) = b`. -/
lemma rgbtoint_rgbtofloat (b : ℤ) : rgbtoint (rgbtofloat b) = b := by
  unfold rgbtoint rgbtofloat
  have h255 : (255.0 : ℚ) = 255 := by norm_num
  rw [h255, div_mul_cancel₀ _ (by norm_num : (255 : ℚ) ≠ 0)]
  exact ratTrunc_intCast b

lemma mask_middle_byte (n : ℕ) : (n &&& 65280) >>> 8 = (n >>> 8) &&& 255 := by
  have h65280 : (65280 : ℕ) = 255 <<< 8 := by norm_num [Nat.shiftLeft_eq]
  apply Nat.eq_of_testBit_eq
  intro k
  rw [Nat.testBit_shiftRight, Nat.testBit_land, Nat.testBit_land, Nat.testBit_shiftRight,
    h65280, Nat.testBit_shiftLeft]
  simp

lemma mask_low_byte (n : ℕ) : n &&& 255 = n % 256 := by
  have := Nat.and_pow_two_sub_one_eq_mod n 8
  norm_num at this
  exact this

/-- On a nonnegative `long`, the three extractions of `pixelfromint` are the
three bytes of the input. -/
lemma pixelfromint_bytes (n : ℕ) :
    pixelfromint (n : ℤ) =
      { red := rgbtofloat ((n / 65536 : ℕ) : ℤ),
        green := rgbtofloat ((n / 256 % 256 : ℕ) : ℤ),
        blue := rgbtofloat ((n % 256 : ℕ) : ℤ) } := by
  unfold pixelfromint
  have hred : (n : ℤ) >>> (16 : ℤ) = ((n / 65536 : ℕ) : ℤ) := by
    have h16 : ((16 : ℕ) : ℤ) = (16 : ℤ) := by norm_num
    rw [← h16, Int.shiftRight_coe_nat, Nat.shiftRight_eq_div_pow]
  have hland : ∀ k : ℕ, Int.land (n : ℤ) ((k : ℕ) : ℤ) = ((n &&& k : ℕ) : ℤ) := fun k => rfl
  have hgreen : Int.land (n : ℤ) 0x0000FF00 >>> (8 : ℤ) = ((n / 256 % 256 : ℕ) : ℤ) := by
    have h0 : (0x0000FF00 : ℤ) = ((65280 : ℕ) : ℤ) := by norm_num
    have h8 : ((8 : ℕ) : ℤ) = (8 : ℤ) := by norm_num
    rw [h0, hland 65280, ← h8, Int.shiftRight_coe_nat, mask_middle_byte, mask_low_byte,
      Nat.shiftRight_eq_div_pow]
  have hblue : Int.land (n : ℤ) 0x000000FF = ((n % 256 : ℕ) : ℤ) := by
    have h0 : (0x000000FF : ℤ) = ((255 : ℕ) : ℤ) := by norm_num
    rw [h0, hland 255, mask_low_byte]
  rw [hred, hgreen, hblue]

/-- **C1** (confirmed).  For every valid 24-bit input value, the seed
`pixel8` produced by `pixel8frompixel (pixelfromint input)` — each input byte
converted to a unit-range float and back to a byte by truncating
multiplication by 255 — has red, green and blue equal to the corresponding
bytes of the input. -/
theorem C1_seed_is_input_bytes (n : ℕ) (h : n < 2 ^ 24) :
    pixel8frompixel (pixelfromint (n : ℤ)) =
      { red := ⟨n / 65536, by omega⟩,
        green := ⟨n / 256 % 256, by omega⟩,
        blue := ⟨n % 256, by omega⟩ } := by
  rw [pixelfromint_bytes]
  unfold pixel8frompixel
  simp only [rgbtoint_rgbtofloat]
  congr 1 <;> exact Fin.ext (by simp; omega)

/-- Witness for C1 at the concrete input `0x123456`. -/
theorem C1_seed_is_input_bytes_witness :
    (0x123456 : ℕ) < 2 ^ 24 ∧
      pixel8frompixel (pixelfromint ((0x123456 : ℕ) : ℤ)) =
        { red := ⟨0x12, by decide⟩, green := ⟨0x34, by decide⟩, blue := ⟨0x56, by decide⟩ } :=
  ⟨by decide, C1_seed_is_input_bytes 0x123456 (by decide)⟩

/-! ## Claims about the search loop (C2, C5, C6) -/

/-- **C2** (confirmed).  For every input (and every model of `pow`), the
optimizer's search loop terminates: iterating the loop body from the seed
state reaches the `break` after finitely many sweeps.  Candidate errors are
drawn from the finite set of pipeline outputs over the `256^3` lattice and
the best error strictly decreases at every continuing sweep. -/
theorem C2_loop_terminates (cpow : ℚ → ℚ → ℚ) (n : ℤ) :
    ∃ k, ((step (newerrorOf cpow (goalOf cpow n)))^[k] (initialState cpow n)).done = true :=
  loop_terminates (newerrorOf cpow (goalOf cpow n)) (firstguess n)

/-- **C5** (confirmed).  For every input, the recorded best error is strictly
decreasing across continuing iterations of the search loop (at every
iteration, either the loop has terminated or the error strictly dropped), and
the recorded best error never exceeds the seed's initial error: the seed is
never worsened.  Acceptance is the strict `<` comparison of `tryCandidate`. -/
theorem C5_error_strictly_decreases (cpow : ℚ → ℚ → ℚ) (n : ℤ) :
    (∀ k, ((step (newerrorOf cpow (goalOf cpow n)))^[k + 1] (initialState cpow n)).done = true ∨
      ((step (newerrorOf cpow (goalOf cpow n)))^[k + 1] (initialState cpow n)).besterror <
        ((step (newerrorOf cpow (goalOf cpow n)))^[k] (initialState cpow n)).besterror) ∧
    (∀ k, ((step (newerrorOf cpow (goalOf cpow n)))^[k] (initialState cpow n)).besterror ≤
      newerrorOf cpow (goalOf cpow n) (firstguess n)) := by
  set err := newerrorOf cpow (goalOf cpow n) with herr
  constructor
  · intro k
    set s := (step err)^[k] (initialState cpow n) with hs
    rw [Function.iterate_succ_apply']
    by_cases hd : s.done = true
    · left
      rw [step_of_done hd, hd]
    · have hinv : LoopInv err s := loopInv_iterate err (firstguess n) k
      have hd' : s.done = false := by simpa using hd
      have hshape : s = ⟨s.bestguess, err s.bestguess, false⟩ := by
        rw [← hinv.1, ← hd']
      by_cases hf : (step err s).done = true
      · left; exact hf
      · right
        have hf' : (step err ⟨s.bestguess, err s.bestguess, false⟩).done = false := by
          rw [← hshape]
          simpa using hf
        obtain ⟨g', hstep, hlt⟩ := step_improve hf'
        have hss : step err s = ⟨g', err g', false⟩ := by
          rw [hshape]
          exact hstep
        rw [hss]
        exact lt_of_lt_of_eq hlt hinv.1.symm
  · intro k
    exact iterate_besterror_le err (initialState cpow n) k

/-- **C6** (confirmed).  For every input: (1) the loop reaches a `done` state
whose reported guess is a local optimum of the 6-direction axis neighborhood
— no in-range candidate one step away has strictly smaller error; (2) if the
seed itself is already such a local optimum, the very first sweep accepts
nothing and the loop breaks after exactly one sweep, reporting the seed
unchanged; (3) a validated argument exits with code 0, so this outcome is a
success, not an error. -/
theorem C6_final_guess_local_optimum (cpow : ℚ → ℚ → ℚ) (n : ℤ) :
    (∃ k, ((step (newerrorOf cpow (goalOf cpow n)))^[k] (initialState cpow n)).done = true ∧
      ∀ c ∈ candidates ((step (newerrorOf cpow (goalOf cpow n)))^[k] (initialState cpow n)).bestguess,
        newerrorOf cpow (goalOf cpow n)
            ((step (newerrorOf cpow (goalOf cpow n)))^[k] (initialState cpow n)).bestguess ≤
          newerrorOf cpow (goalOf cpow n) c) ∧
    ((∀ c ∈ candidates (firstguess n),
        newerrorOf cpow (goalOf cpow n) (firstguess n) ≤ newerrorOf cpow (goalOf cpow n) c) →
      step (newerrorOf cpow (goalOf cpow n)) (initialState cpow n) =
        ⟨firstguess n, newerrorOf cpow (goalOf cpow n) (firstguess n), true⟩) ∧
    (∀ a : String, inputok a = true → main_exit [a] = 0) := by
  set err := newerrorOf cpow (goalOf cpow n) with herr
  refine ⟨?_, ?_, ?_⟩
  · obtain ⟨k, hk⟩ := loop_terminates err (firstguess n)
    refine ⟨k, hk, ?_⟩
    have hinv := loopInv_iterate err (firstguess n) k
    intro c hc
    have := hinv.2 hk c hc
    exact this
  · intro hopt
    show step err ⟨firstguess n, err (firstguess n), false⟩ = _
    rw [step_mk_false]
    have hno : runSweep err (candidates (firstguess n))
        ⟨firstguess n, err (firstguess n), false⟩ =
        ⟨firstguess n, err (firstguess n), false⟩ :=
      runSweep_of_no_improve err _ _ (fun c hc => hopt c hc)
    rw [hno]
    rfl
  · intro a ha
    simp [main_exit, ha]

/-! ## Claims about the sweep (C7, C10) -/

/-- The specification's description of a legal candidate move: all channels
stay within `[0, 255]`, and the candidate differs from the center by exactly
one on exactly one channel, without wrap-around. -/
def isAxisStep (p c : pixel8) : Prop :=
  (c.red.val ≤ 255 ∧ c.green.val ≤ 255 ∧ c.blue.val ≤ 255) ∧
  ((c.red.val = p.red.val + 1 ∧ c.green = p.green ∧ c.blue = p.blue) ∨
   (c.red.val + 1 = p.red.val ∧ c.green = p.green ∧ c.blue = p.blue) ∨
   (c.green.val = p.green.val + 1 ∧ c.red = p.red ∧ c.blue = p.blue) ∨
   (c.green.val + 1 = p.green.val ∧ c.red = p.red ∧ c.blue = p.blue) ∨
   (c.blue.val = p.blue.val + 1 ∧ c.red = p.red ∧ c.green = p.green) ∨
   (c.blue.val + 1 = p.blue.val ∧ c.red = p.red ∧ c.green = p.green))

/-- **C7** (confirmed).  During every sweep, the only pixels ever scored by
the objective function are the members of the guarded candidate list (the
sweep is exactly a fold of the scoring block over that list), and every
member of that list is an in-range single-axis step from the sweep's center:
no channel leaves `[0, 255]` and no channel value wraps around, for every
center including those with a channel at 0 or 255. -/
theorem C7_out_of_range_skipped (err : pixel8 → ℚ) (e : ℚ) (p c : pixel8)
    (hc : c ∈ candidates p) :
    sweep err p e = runSweep err (candidates p) ⟨p, e, false⟩ ∧ isAxisStep p c := by
  refine ⟨sweep_eq_runSweep err p e, ⟨by omega, by omega, by omega⟩, ?_⟩
  rcases mem_candidates_iff.mp hc with ⟨h, rfl⟩ | ⟨h, rfl⟩ | ⟨h, rfl⟩ | ⟨h, rfl⟩ |
    ⟨h, rfl⟩ | ⟨h, rfl⟩
  · exact Or.inl ⟨fin_add_one_val p.red h, rfl, rfl⟩
  · exact Or.inr (Or.inl ⟨by rw [fin_sub_one_val p.red h]; omega, rfl, rfl⟩)
  · exact Or.inr (Or.inr (Or.inl ⟨fin_add_one_val p.green h, rfl, rfl⟩))
  · exact Or.inr (Or.inr (Or.inr (Or.inl ⟨by rw [fin_sub_one_val p.green h]; omega, rfl, rfl⟩)))
  · exact Or.inr (Or.inr (Or.inr (Or.inr (Or.inl ⟨fin_add_one_val p.blue h, rfl, rfl⟩))))
  · exact Or.inr (Or.inr (Or.inr (Or.inr (Or.inr
      ⟨by rw [fin_sub_one_val p.blue h]; omega, rfl, rfl⟩))))

/-- Witness for C7 at the all-zero center and its `+red` candidate. -/
theorem C7_out_of_range_skipped_witness :
    (⟨1, 0, 0⟩ : pixel8) ∈ candidates ⟨0, 0, 0⟩ ∧
      (sweep (fun _ => (0 : ℚ)) ⟨0, 0, 0⟩ 0 =
        runSweep (fun _ => (0 : ℚ)) (candidates ⟨0, 0, 0⟩) ⟨⟨0, 0, 0⟩, 0, false⟩ ∧
      isAxisStep ⟨0, 0, 0⟩ ⟨1, 0, 0⟩) :=
  ⟨by decide, C7_out_of_range_skipped (fun _ => (0 : ℚ)) 0 ⟨0, 0, 0⟩ ⟨1, 0, 0⟩ (by decide)⟩

/-- **C10** (confirmed).  In every sweep, candidates are generated from the
fixed center but compared against the running best error; when at least one
candidate is accepted, the sweep's result is a candidate attaining the
minimum error over all in-range candidates of the sweep, and among candidates
tied at that minimum the earliest in the fixed enumeration order wins: every
strictly earlier candidate has strictly larger error. -/
theorem C10_sweep_selects_first_minimum (err : pixel8 → ℚ) (g : pixel8) (e : ℚ)
    (hf : (sweep err g e).found = true) :
    (sweep err g e).bestguess ∈ candidates g ∧
    (sweep err g e).besterror = err (sweep err g e).bestguess ∧
    err (sweep err g e).bestguess < e ∧
    (∀ c ∈ candidates g, err (sweep err g e).bestguess ≤ err c) ∧
    ∃ l₁ l₂, candidates g = l₁ ++ (sweep err g e).bestguess :: l₂ ∧
      ∀ c ∈ l₁, err (sweep err g e).bestguess < err c := by
  rw [sweep_eq_runSweep] at hf ⊢
  have himp := runSweep_found_improve err (candidates g) _ rfl hf
  obtain ⟨hfound, heq, hlt, hall, l₁, l₂, hsplit, hstrict⟩ :=
    runSweep_improve err (candidates g) _ himp
  refine ⟨?_, heq, hlt, hall, l₁, l₂, hsplit, hstrict⟩
  have hmem : (runSweep err (candidates g) ⟨g, e, false⟩).bestguess ∈
      l₁ ++ (runSweep err (candidates g) ⟨g, e, false⟩).bestguess :: l₂ :=
    List.mem_append.mpr (Or.inr (List.mem_cons_self _ _))
  rw [← hsplit] at hmem
  exact hmem

/-- Witness for C10 with the constant-zero error at center `(0,0,0)` and
entering error 1: the `+red` candidate is accepted first. -/
theorem C10_sweep_selects_first_minimum_witness :
    (sweep (fun _ => (0 : ℚ)) ⟨0, 0, 0⟩ 1).found = true ∧
      ((sweep (fun _ => (0 : ℚ)) ⟨0, 0, 0⟩ 1).bestguess ∈ candidates ⟨0, 0, 0⟩ ∧
      (sweep (fun _ => (0 : ℚ)) ⟨0, 0, 0⟩ 1).besterror =
        (fun _ => (0 : ℚ)) (sweep (fun _ => (0 : ℚ)) ⟨0, 0, 0⟩ 1).bestguess ∧
      (fun _ => (0 : ℚ)) (sweep (fun _ => (0 : ℚ)) ⟨0, 0, 0⟩ 1).bestguess < 1 ∧
      (∀ c ∈ candidates ⟨0, 0, 0⟩,
        (fun _ => (0 : ℚ)) (sweep (fun _ => (0 : ℚ)) ⟨0, 0, 0⟩ 1).bestguess ≤
          (fun _ => (0 : ℚ)) c) ∧
      ∃ l₁ l₂, candidates ⟨0, 0, 0⟩ =
          l₁ ++ (sweep (fun _ => (0 : ℚ)) ⟨0, 0, 0⟩ 1).bestguess :: l₂ ∧
        ∀ c ∈ l₁, (fun _ => (0 : ℚ)) (sweep (fun _ => (0 : ℚ)) ⟨0, 0, 0⟩ 1).bestguess <
          (fun _ => (0 : ℚ)) c) :=
  ⟨by decide, C10_sweep_selects_first_minimum (fun _ => (0 : ℚ)) ⟨0, 0, 0⟩ 1 (by decide)⟩

/-! ## Claims about the CLI contract (C3, C4) -/

/-- The well-formed argument shape in the words of claim C3: the `0x` prefix
followed by exactly 6 hexadecimal digits. -/
def specHex0xForm (s : String) : Bool :=
  match s.data with
  | '0' :: 'x' :: rest => rest.length == 6 && rest.all isHexDigitChar
  | _ => false

/-- **C3 counterexample**.  The argument `"12345678"` is not a `0x`-prefixed
hexadecimal string of 8 characters, yet the program does not treat it as a
bad parameter: `strtol` with base 0 consumes all 8 characters of the decimal
number, validation passes, and the exit code is 0, not 2. -/
theorem C3_counterexample :
    specHex0xForm "12345678" = false ∧ main_exit ["12345678"] ≠ 2 := by
  exact ⟨by decide, by decide⟩

/-- **C3 as amended** (the code's actual validity test is `strtol`-based, not
`0x`-shape-based).  For every single argument rejected by the input
validation — `strtol` consumed a number of characters other than 8, or left
trailing characters, or set `errno` — the program treats it as a bad
parameter and exits with code 2.  (Arguments need not be `0x`-prefixed: any
base-0 parse consuming exactly 8 characters, such as decimal `"12345678"`,
is accepted.) -/
theorem C3_rejected_args_exit_2 (a : String) (h : inputok a = false) :
    main_exit [a] = 2 := by
  simp [main_exit, h]

/-- Witness for the amended C3 at the 7-character argument `"0x12345"`. -/
theorem C3_rejected_args_exit_2_witness :
    inputok "0x12345" = false ∧ main_exit ["0x12345"] = 2 :=
  ⟨by decide, C3_rejected_args_exit_2 "0x12345" (by decide)⟩

/-- **C4** (confirmed).  The exit code is 1 when the argument count is not
exactly one, 2 when the single argument fails validation, 0 on success; in
particular `"0x12345"` and `"0x1234567"` yield 2, `"0x123456"` yields 0, and
zero or two arguments yield 1. -/
theorem C4_exit_codes :
    main_exit [] = 1 ∧
    (∀ a b : String, main_exit [a, b] = 1) ∧
    main_exit ["0x12345"] = 2 ∧
    main_exit ["0x1234567"] = 2 ∧
    main_exit ["0x123456"] = 0 ∧
    (∀ args : List String, args.length ≠ 1 → main_exit args = 1) ∧
    (∀ a : String, inputok a = false → main_exit [a] = 2) ∧
    (∀ a : String, inputok a = true → main_exit [a] = 0) := by
  refine ⟨by decide, fun a b => rfl, by decide, by decide, by decide, ?_, ?_, ?_⟩
  · intro args h
    match args with
    | [] => rfl
    | [a] => exact absurd rfl h
    | a :: b :: t => rfl
  · intro a h
    simp [main_exit, h]
  · intro a h
    simp [main_exit, h]

/-- Witness for C4's general argument-count clause at a concrete two-element
argument list. -/
theorem C4_exit_codes_witness :
    (["a", "b"] : List String).length ≠ 1 ∧ main_exit ["a", "b"] = 1 :=
  ⟨by decide, C4_exit_codes.2.2.2.2.2.1 ["a", "b"] (by decide)⟩

/-! ## Claims about the pipeline transforms (C8, C9) -/

lemma clampfloat_mem (x : ℚ) : 0 ≤ clampfloat x ∧ clampfloat x ≤ 1 := by
  unfold clampfloat
  split_ifs with h1 h2
  · norm_num
  · norm_num
  · norm_num at h1 h2
    exact ⟨h1, h2⟩

/-- **C8** (confirmed).  Every color-pipeline transform clamps defensively
after computing: whatever the input pixel (channels possibly outside
`[0, 1]`) and whatever value the `pow` model returns, the outputs of
`tolinear`, `togamma`, `NTSCJtoSRGB` and `RGBtoXYZ` lie in `[0, 1]` on every
channel, and the composed `processpixel8` is a total function with all three
output channels in `[0, 1]` for every `pixel8` input (in this exact model
there is no `NaN` and no failing path). -/
theorem C8_transforms_clamped (cpow : ℚ → ℚ → ℚ) :
    (∀ x : ℚ, 0 ≤ tolinear cpow x ∧ tolinear cpow x ≤ 1) ∧
    (∀ x : ℚ, 0 ≤ togamma cpow x ∧ togamma cpow x ≤ 1) ∧
    (∀ p : pixel,
      (0 ≤ (NTSCJtoSRGB p).red ∧ (NTSCJtoSRGB p).red ≤ 1) ∧
      (0 ≤ (NTSCJtoSRGB p).green ∧ (NTSCJtoSRGB p).green ≤ 1) ∧
      (0 ≤ (NTSCJtoSRGB p).blue ∧ (NTSCJtoSRGB p).blue ≤ 1)) ∧
    (∀ p : pixel,
      (0 ≤ (RGBtoXYZ p).red ∧ (RGBtoXYZ p).red ≤ 1) ∧
      (0 ≤ (RGBtoXYZ p).green ∧ (RGBtoXYZ p).green ≤ 1) ∧
      (0 ≤ (RGBtoXYZ p).blue ∧ (RGBtoXYZ p).blue ≤ 1)) ∧
    (∀ q : pixel8,
      (0 ≤ (processpixel8 cpow q).red ∧ (processpixel8 cpow q).red ≤ 1) ∧
      (0 ≤ (processpixel8 cpow q).green ∧ (processpixel8 cpow q).green ≤ 1) ∧
      (0 ≤ (processpixel8 cpow q).blue ∧ (processpixel8 cpow q).blue ≤ 1)) := by
  refine ⟨?_, ?_, ?_, ?_, ?_⟩
  · intro x
    unfold tolinear
    split_ifs <;> exact clampfloat_mem _
  · intro x
    unfold togamma
    split_ifs <;> exact clampfloat_mem _
  · intro p
    exact ⟨clampfloat_mem _, clampfloat_mem _, clampfloat_mem _⟩
  · intro p
    exact ⟨clampfloat_mem _, clampfloat_mem _, clampfloat_mem _⟩
  · intro q
    exact ⟨clampfloat_mem _, clampfloat_mem _, clampfloat_mem _⟩

/-- **C9** (confirmed).  The objective-function pipeline applied to pure
black is exactly zero: `processpixel8` on the `pixel8` triple `(0,0,0)` —
decode to float, sRGB-linearize (the linear branch, which calls no `pow`),
NTSC-J-to-sRGB matrix, RGB-to-XYZ matrix, clamping after each transform —
yields the XYZ pixel `(0, 0, 0)` exactly, for every model of `pow`. -/
theorem C9_black_to_zero (cpow : ℚ → ℚ → ℚ) :
    processpixel8 cpow ⟨0, 0, 0⟩ = ⟨0, 0, 0⟩ := by
  have hzero : clampfloat 0 = 0 := by norm_num [clampfloat]
  have hlin : tolinear cpow 0 = 0 := by
    norm_num [tolinear, clampfloat]
  have h0 : pixelfrompixel8 ⟨0, 0, 0⟩ = ⟨0, 0, 0⟩ := by
    norm_num [pixelfrompixel8, rgbtofloat]
  have h1 : pixeltolinear cpow (⟨0, 0, 0⟩ : pixel) = ⟨0, 0, 0⟩ := by
    show pixel.mk (tolinear cpow 0) (tolinear cpow 0) (tolinear cpow 0) = _
    rw [hlin]
  have h2 : NTSCJtoSRGB ⟨0, 0, 0⟩ = ⟨0, 0, 0⟩ := by
    show pixel.mk _ _ _ = _
    simp only [mul_zero, add_zero, hzero]
  have h3 : RGBtoXYZ ⟨0, 0, 0⟩ = ⟨0, 0, 0⟩ := by
    show pixel.mk _ _ _ = _
    simp only [mul_zero, add_zero, hzero]
  show RGBtoXYZ (NTSCJtoSRGB (pixeltolinear cpow (pixelfrompixel8 ⟨0, 0, 0⟩))) = ⟨0, 0, 0⟩
  rw [h0, h1, h2, h3]

/-- Witness for C6's success clause at the validated argument `"0x123456"`. -/
theorem C6_final_guess_local_optimum_witness :
    inputok "0x123456" = true ∧ main_exit ["0x123456"] = 0 :=
  ⟨by decide, (C6_final_guess_local_optimum (fun _ _ => (0 : ℚ)) 0).2.2 "0x123456" (by decide)⟩
